import Mathlib

/-!
Verification of the position/state bookkeeping and trading-date resolution
core of the AI-Trader repository (module `tools/price_tools.py` and the
agent registration logic of `agent/base_agent_astock/base_agent_astock.py`).

The Python code is shallowly embedded: JSON documents become an inductive
`Json` type, JSON-lines files become `List (Option _)` (a `none` line is a
line that fails JSON parsing and is skipped by every reader), the file
system state of a single file becomes `Option` of its content, Python
floats become `Rat`, and Python exceptions become `Except Unit`.
Timestamp strings are parsed exactly the way CPython `strptime` parses the
formats used by the source (in particular, `%H`, `%M`, `%S`, `%m`, `%d`
accept one-digit or two-digit fields while `%Y` requires exactly four
digits), and calendar arithmetic uses the proleptic Gregorian calendar via
rata-die day numbers, with Monday = 0 weekday numbering as in Python.
-/

set_option autoImplicit false

namespace AITrader

/-! ## Characters, digits and small string utilities -/

/-- Digit test for a character, as in decimal timestamp fields. -/
def isDig (c : Char) : Bool := 48 ≤ c.toNat && c.toNat ≤ 57

/-- Decimal value of a run of digit characters (must be nonempty and all digits). -/
def digitsVal : List Char → Option Nat
  | [] => none
  | cs => if cs.all isDig then some (cs.foldl (fun a c => a * 10 + (c.toNat - 48)) 0) else none

/-- Split a character list at every occurrence of the separator, keeping empty parts,
    like Python `str.split(sep)`. -/
def splitOnC (sep : Char) : List Char → List (List Char)
  | [] => [[]]
  | c :: cs =>
    let r := splitOnC sep cs
    if c = sep then [] :: r
    else match r with
      | [] => [[c]]
      | p :: ps => (c :: p) :: ps

/-- Split at the first occurrence of the separator only, like Python
    `str.split(sep, 1)` when the separator occurs. -/
def splitOnce (sep : Char) : List Char → (List Char × List Char)
  | [] => ([], [])
  | c :: cs =>
    if c = sep then ([], cs)
    else
      let r := splitOnce sep cs
      (c :: r.1, r.2)

/-- Character of a decimal digit. -/
def digChar (n : Nat) : Char := Char.ofNat (48 + n)

/-- Decimal digit characters of a natural number (fueled helper). -/
def natDigitsAux : Nat → Nat → List Char
  | 0, _ => []
  | fuel + 1, n => if n < 10 then [digChar n] else natDigitsAux fuel (n / 10) ++ [digChar (n % 10)]

/-- Decimal digit characters of a natural number. -/
def natDigits (n : Nat) : List Char := natDigitsAux 12 n

/-- Zero-padded decimal rendering to a minimum width, as Python `strftime` pads
    `%Y` to four and `%m`, `%d`, `%H`, `%M`, `%S` to two characters. -/
def padNum (w n : Nat) : List Char :=
  let ds := natDigits n
  List.replicate (w - ds.length) '0' ++ ds

/-- Python `str.zfill(2)` on the hour field: pad with leading zeros to length two.
    (For the strings this is applied to, the sign-aware behaviour of `zfill`
    coincides with plain left padding.) -/
def zfill2 (cs : List Char) : List Char :=
  List.replicate (2 - cs.length) '0' ++ cs

/-- Bool test for list prefix over characters, used for `str.startswith`. -/
def chStarts : List Char → List Char → Bool
  | [], _ => true
  | _ :: _, [] => false
  | p :: ps, c :: cs => p == c && chStarts ps cs

/-! ## Proleptic Gregorian calendar (as used by Python `datetime`) -/

/-- Gregorian leap-year test. -/
def isLeap (y : Nat) : Bool := (y % 4 == 0 && y % 100 != 0) || y % 400 == 0

/-- Number of days in a month. -/
def daysInMonth (y m : Nat) : Nat :=
  if m = 2 then (if isLeap y then 29 else 28)
  else if m = 4 ∨ m = 6 ∨ m = 9 ∨ m = 11 then 30 else 31

/-- Days in the months before month `m` of year `y`. -/
def daysBeforeMonth (y m : Nat) : Nat :=
  (List.range (m - 1)).foldl (fun acc i => acc + daysInMonth y (i + 1)) 0

/-- Rata-die day number of a proleptic Gregorian date; 0001-01-01 is day 1.
    This is exactly `datetime.date.toordinal` in Python. -/
def rataDie (y m d : Nat) : Nat :=
  365 * (y - 1) + (y - 1) / 4 - (y - 1) / 100 + (y - 1) / 400 + daysBeforeMonth y m + d

/-- Python `date.weekday()`: Monday = 0 … Sunday = 6, from the rata-die number. -/
def weekdayOf (n : Nat) : Nat := (n - 1) % 7

/-- Inverse of `rataDie` (civil-from-days, Hinnant's algorithm shifted to
    rata-die numbering so that all quantities stay natural numbers). -/
def civilFromRataDie (n : Nat) : Nat × Nat × Nat :=
  let z := n + 305
  let era := z / 146097
  let doe := z % 146097
  let yoe := (doe - doe / 1460 + doe / 36524 - doe / 146096) / 365
  let doy := doe - (365 * yoe + yoe / 4 - yoe / 100)
  let mp := (5 * doy + 2) / 153
  let d := doy - (153 * mp + 2) / 5 + 1
  let m := if mp < 10 then mp + 3 else mp - 9
  let y := yoe + era * 400 + (if m ≤ 2 then 1 else 0)
  (y, m, d)

/-- A parsed timestamp: a proleptic Gregorian datetime, the image of a Python
    `datetime` object. Date-only strings parse to midnight. -/
structure DT where
  year : Nat
  month : Nat
  day : Nat
  hour : Nat
  minute : Nat
  second : Nat
  deriving DecidableEq, Repr

/-- Rata-die day number of a datetime. -/
def DT.dayNum (t : DT) : Nat := rataDie t.year t.month t.day

/-- Absolute second count of a datetime; Python compares `datetime` values in
    exactly this chronological order. -/
def DT.secs (t : DT) : Nat := t.dayNum * 86400 + t.hour * 3600 + t.minute * 60 + t.second

/-- Datetime at a given absolute second count. -/
def dtFromSecs (n : Nat) : DT :=
  let c := civilFromRataDie (n / 86400)
  let r := n % 86400
  ⟨c.1, c.2.1, c.2.2, r / 3600, r % 3600 / 60, r % 60⟩

/-! ## Timestamp parsing (CPython `strptime` for the two source formats) -/

/-- Parse the date part `YYYY-MM-DD` as CPython
    `strptime(s, "%Y-%m-%d")` does: `%Y` takes exactly four digits, `%m` and
    `%d` take one or two digits, then `datetime` validates ranges
    (year at least 1, month 1–12, day within the month). -/
def parseDateCs (cs : List Char) : Option DT :=
  match splitOnC '-' cs with
  | [ys, ms, ds] =>
    match digitsVal ys, digitsVal ms, digitsVal ds with
    | some y, some m, some d =>
      if ys.length = 4 ∧ 1 ≤ y ∧
         ms.length ≤ 2 ∧ 1 ≤ m ∧ m ≤ 12 ∧
         ds.length ≤ 2 ∧ 1 ≤ d ∧ d ≤ daysInMonth y m then
        some ⟨y, m, d, 0, 0, 0⟩
      else none
    | _, _, _ => none
  | _ => none

/-- Parse the time part `H:MM:SS` as CPython `strptime` `%H:%M:%S` does:
    each field takes one or two digits, hours up to 23, minutes and seconds up
    to 59 (a parsed 60 or 61 in `%S` is rejected by the `datetime` constructor). -/
def parseTimeCs (cs : List Char) : Option (Nat × Nat × Nat) :=
  match splitOnC ':' cs with
  | [hs, ms, ss] =>
    match digitsVal hs, digitsVal ms, digitsVal ss with
    | some h, some mi, some s =>
      if hs.length ≤ 2 ∧ h ≤ 23 ∧ ms.length ≤ 2 ∧ mi ≤ 59 ∧ ss.length ≤ 2 ∧ s ≤ 59 then
        some (h, mi, s)
      else none
    | _, _, _ => none
  | _ => none

/-- `strptime(s, "%Y-%m-%d %H:%M:%S")`: one date part, one space, one time part. -/
def parseDateTime (s : String) : Option DT :=
  match splitOnC ' ' s.data with
  | [dp, tp] =>
    match parseDateCs dp, parseTimeCs tp with
    | some t, some hms => some ⟨t.year, t.month, t.day, hms.1, hms.2.1, hms.2.2⟩
    | _, _ => none
  | _ => none

/-- `strptime(s, "%Y-%m-%d")`. -/
def parseDate (s : String) : Option DT :=
  match splitOnC ' ' s.data with
  | [cs] => parseDateCs cs
  | _ => none

/-- Whether the string contains a space, the granularity dispatch used
    throughout the source. -/
def hasSpace (s : String) : Bool := s.data.any (fun c => c == ' ')

/-- Embeds the timestamp dispatch of `_parse_timestamp_to_dt` and of
    `get_yesterday_date`: the boolean is `true` for a date-only input. -/
def parseTS (s : String) : Option (DT × Bool) :=
  if hasSpace s then (parseDateTime s).map (fun t => (t, false))
  else (parseDate s).map (fun t => (t, true))

/-! ## Timestamp rendering (`strftime` for the two source formats) -/

/-- `strftime("%Y-%m-%d")` of the date with the given rata-die number. -/
def renderDate (n : Nat) : String :=
  let c := civilFromRataDie n
  ⟨padNum 4 c.1 ++ '-' :: padNum 2 c.2.1 ++ '-' :: padNum 2 c.2.2⟩

/-- `strftime("%Y-%m-%d %H:%M:%S")` of a datetime. -/
def renderDT (t : DT) : String :=
  ⟨padNum 4 t.year ++ '-' :: padNum 2 t.month ++ '-' :: padNum 2 t.day ++
   ' ' :: padNum 2 t.hour ++ ':' :: padNum 2 t.minute ++ ':' :: padNum 2 t.second⟩

/-- `_normalize_timestamp_str` from `tools/price_tools.py`: pad the hour of a
    `YYYY-MM-DD H:MM:SS` string to two digits; return anything else unchanged. -/
def normalizeTimestampStr (s : String) : String :=
  if hasSpace s then
    let dp := (splitOnce ' ' s.data).1
    let tp := (splitOnce ' ' s.data).2
    match splitOnC ':' tp with
    | [hh, mm, ss] => ⟨dp ++ ' ' :: zfill2 hh ++ ':' :: mm ++ ':' :: ss⟩
    | _ => s
  else s

/-! ## JSON values and Python-dict association lists -/

/-- JSON values as loaded by `json.loads`; numbers are embedded as rationals. -/
inductive Json where
  | null
  | bool (b : Bool)
  | num (q : ℚ)
  | str (s : String)
  | arr (elems : List Json)
  | obj (entries : List (String × Json))
  deriving Repr

/-- Key lookup in the entry list of a JSON object (`dict.get(key)`); objects
    produced by `json.loads` have distinct keys, so the first match is the match. -/
def jget (k : String) : List (String × Json) → Option Json
  | [] => none
  | (k', v) :: rest => if k' = k then some v else jget k rest

/-- Python dict insertion `d[k] = v`: replace the value at an existing key in
    place, otherwise append the binding at the end. -/
def dinsert {α : Type} (k : String) (v : α) : List (String × α) → List (String × α)
  | [] => [(k, v)]
  | (k', v') :: rest => if k' = k then (k, v) :: rest else (k', v') :: dinsert k v rest

/-- Python dict lookup `d.get(k)` on an association list built by `dinsert`. -/
def dget {α : Type} (k : String) : List (String × α) → Option α
  | [] => none
  | (k', v) :: rest => if k' = k then some v else dget k rest

/-- Python `float(x)` on a JSON value: numbers and booleans convert, strings
    convert when they spell a (possibly signed) decimal number, everything else
    raises (`none` means the conversion raises). -/
def pyFloat : Json → Option ℚ
  | .num q => some q
  | .bool b => some (if b then 1 else 0)
  | .str s =>
    let cs := s.data
    let body := match cs with
      | '-' :: rest => rest
      | '+' :: rest => rest
      | rest => rest
    let neg : Bool := match cs with
      | '-' :: _ => true
      | _ => false
    match splitOnC '.' body with
    | [ip] =>
      match digitsVal ip with
      | some n => some (if neg then -(n : ℚ) else (n : ℚ))
      | none => none
    | [ip, fp] =>
      if (ip ≠ [] ∨ fp ≠ []) ∧ ip.all isDig ∧ fp.all isDig then
        let n : ℚ := (ip.foldl (fun a c => a * 10 + (c.toNat - 48)) 0 : Nat)
        let f : ℚ := (fp.foldl (fun a c => a * 10 + (c.toNat - 48)) 0 : Nat)
        let q := n + f / ((10 : ℚ) ^ fp.length)
        some (if neg then -q else q)
      else none
    | _ => none
  | _ => none

/-- The Python expression `float(v) if v is not None else None` applied to the
    result of `bar.get(field)`: a missing key or a JSON `null` gives `None`
    without calling `float`; otherwise `float` runs and may raise.
    `Except.error ()` is the raised exception, caught by the caller. -/
def pyFloatOpt (v : Option Json) : Except Unit (Option ℚ) :=
  match v with
  | none => .ok none
  | some .null => .ok none
  | some j =>
    match pyFloat j with
    | some q => .ok (some q)
    | none => .error ()

/-! ## Price log files -/

/-- One line of a `merged.jsonl` price log: `none` is a blank or JSON-invalid
    line (skipped by every reader), `some doc` the parsed document. -/
abbrev LogLine := Option Json

/-- First `"Time Series*"` entry of a document's top-level entry list, the
    `for key, value in doc.items(): if key.startswith("Time Series"): ... break`
    pattern of the source. -/
def firstTS (entries : List (String × Json)) : Option Json :=
  match entries with
  | [] => none
  | (k, v) :: rest => if chStarts "Time Series".data k.data then some v else firstTS rest

/-! ## `get_yesterday_date` (previous trading session) -/

/-- Timestamp keys contributed by one log line in `get_yesterday_date`: the key
    set of the first `"Time Series*"` value when that value is an object,
    nothing otherwise (non-object documents raise inside the per-line `try`
    and are skipped). -/
def lineTS : LogLine → List String
  | some (.obj entries) =>
    match firstTS entries with
    | some (.obj series) => series.map Prod.fst
    | _ => []
  | _ => []

/-- All timestamp keys collected by `get_yesterday_date` across the log
    (the Python set union; duplicates are harmless for the maximum). -/
def collectTS (lines : List LogLine) : List String :=
  lines.foldr (fun l acc => lineTS l ++ acc) []

/-- One step of the maximum-earlier-timestamp scan: keys are parsed with
    `strptime(ts, "%Y-%m-%d %H:%M:%S")` only; unparseable keys (in particular
    every date-only key) are skipped. -/
def bestPrevStep (inp : DT) (acc : Option DT) (ts : String) : Option DT :=
  match parseDateTime ts with
  | none => acc
  | some t =>
    if t.secs < inp.secs then
      match acc with
      | none => some t
      | some p => if p.secs < t.secs then some t else acc
    else acc

/-- The maximum parsed timestamp strictly earlier than the input, or `none`. -/
def bestPrev (inp : DT) (keys : List String) : Option DT :=
  keys.foldl (bestPrevStep inp) none

/-- Bounded weekend-skipping loop of the fallback:
    `while yesterday_dt.weekday() >= 5: yesterday_dt -= timedelta(days=1)`.
    The loop body runs at most twice, so fuel 7 computes the true fixpoint. -/
def skipWeekendF : Nat → Nat → Nat
  | 0, d => d
  | fuel + 1, d => if 5 ≤ weekdayOf d then skipWeekendF fuel (d - 1) else d

/-- Degraded-mode fallback of `get_yesterday_date`: date-only inputs step back
    one day and then skip weekend days; datetime inputs step back one hour.
    `Except.error ()` is the `OverflowError` Python raises when the subtraction
    leaves the `datetime` range (year at least 1). -/
def gydFallback (dateOnly : Bool) (inp : DT) : Except Unit String :=
  if dateOnly then
    if inp.dayNum ≤ 1 then .error ()
    else .ok (renderDate (skipWeekendF 7 (inp.dayNum - 1)))
  else
    if inp.secs < 90000 then .error ()
    else .ok (renderDT (dtFromSecs (inp.secs - 3600)))

/-- `get_yesterday_date(today_date, merged_path, market)` from
    `tools/price_tools.py`. The resolved merged file is passed as
    `log : Option (List LogLine)`; `none` is an absent file. The input string is
    parsed first (raising on a malformed input), then the log keys are scanned
    for the maximum `strptime`-parseable timestamp strictly earlier than the
    input; any failure of that scan triggers the calendar fallback. -/
def get_yesterday_date (today : String) (log : Option (List LogLine)) : Except Unit String :=
  match parseTS today with
  | none => .error ()
  | some (inp, dateOnly) =>
    match log with
    | none => gydFallback dateOnly inp
    | some lines =>
      let ats := collectTS lines
      if ats = [] then gydFallback dateOnly inp
      else
        match bestPrev inp ats with
        | none => gydFallback dateOnly inp
        | some m => .ok (if dateOnly then renderDate m.dayNum else renderDT m)

/-! ## `get_open_prices` (opening prices) -/

/-- Processing of one log line by `get_open_prices`: `ok none` when the line
    writes nothing, `ok (some (key, value))` when it writes one entry (the value
    `none` is Python `None`), `error` when the line raises out of the function
    (the `meta.get` call on a non-dict `"Meta Data"` value, which is outside the
    per-line `try`). -/
def gopLine (today : String) (wanted : List String) (line : LogLine) :
    Except Unit (Option (String × Option ℚ)) :=
  match line with
  | none => .ok none
  | some doc =>
    let meta : Json := match doc with
      | .obj entries => (jget "Meta Data" entries).getD (.obj [])
      | _ => .obj []
    match meta with
    | .obj mentries =>
      match jget "2. Symbol" mentries with
      | some (.str s) =>
        if s ∈ wanted then
          match doc with
          | .obj entries =>
            match firstTS entries with
            | some (.obj series) =>
              match jget today series with
              | some (.obj bar) =>
                match pyFloatOpt (jget "1. buy price" bar) with
                | .ok v => .ok (some (s ++ "_price", v))
                | .error _ => .ok (some (s ++ "_price", none))
              | _ => .ok none
            | _ => .ok none
          | _ => .ok none
        else .ok none
      | _ => .ok none
    | _ => .error ()

/-- The per-line loop of `get_open_prices`, threading the result dict. -/
def gopAux (today : String) (wanted : List String) :
    List LogLine → List (String × Option ℚ) → Except Unit (List (String × Option ℚ))
  | [], acc => .ok acc
  | l :: rest, acc =>
    match gopLine today wanted l with
    | .error e => .error e
    | .ok none => gopAux today wanted rest acc
    | .ok (some (k, v)) => gopAux today wanted rest (dinsert k v acc)

/-- `get_open_prices(today_date, symbols, merged_path, market)` from
    `tools/price_tools.py`; the resolved merged file is `log`, `none` when absent. -/
def get_open_prices (today : String) (symbols : List String)
    (log : Option (List LogLine)) : Except Unit (List (String × Option ℚ)) :=
  match log with
  | none => .ok []
  | some lines => gopAux today symbols lines []

/-! ## `get_yesterday_open_and_close_price` -/

/-- Processing of one log line by `get_yesterday_open_and_close_price`:
    `ok (some (key, buy, sell))` writes one entry into each dict. A bar missing
    on the resolved previous session writes `None` into both dicts; a failing
    `float` conversion (both conversions run before either assignment) writes
    `None` into both dicts. -/
def gyocpLine (yd : String) (wanted : List String) (line : LogLine) :
    Except Unit (Option (String × Option ℚ × Option ℚ)) :=
  match line with
  | none => .ok none
  | some doc =>
    let meta : Json := match doc with
      | .obj entries => (jget "Meta Data" entries).getD (.obj [])
      | _ => .obj []
    match meta with
    | .obj mentries =>
      match jget "2. Symbol" mentries with
      | some (.str s) =>
        if s ∈ wanted then
          match doc with
          | .obj entries =>
            match firstTS entries with
            | some (.obj series) =>
              match jget yd series with
              | some (.obj bar) =>
                match pyFloatOpt (jget "1. buy price" bar),
                      pyFloatOpt (jget "4. sell price" bar) with
                | .ok bv, .ok sv => .ok (some (s ++ "_price", bv, sv))
                | _, _ => .ok (some (s ++ "_price", none, none))
              | _ => .ok (some (s ++ "_price", none, none))
            | _ => .ok none
          | _ => .ok none
        else .ok none
      | _ => .ok none
    | _ => .error ()

/-- The per-line loop of `get_yesterday_open_and_close_price`, threading the
    buy and sell dicts. -/
def gyocpAux (yd : String) (wanted : List String) :
    List LogLine → List (String × Option ℚ) → List (String × Option ℚ) →
    Except Unit (List (String × Option ℚ) × List (String × Option ℚ))
  | [], bacc, sacc => .ok (bacc, sacc)
  | l :: rest, bacc, sacc =>
    match gyocpLine yd wanted l with
    | .error e => .error e
    | .ok none => gyocpAux yd wanted rest bacc sacc
    | .ok (some (k, bv, sv)) => gyocpAux yd wanted rest (dinsert k bv bacc) (dinsert k sv sacc)

/-- `get_yesterday_open_and_close_price(today_date, symbols, merged_path, market)`
    from `tools/price_tools.py`: an absent file returns two empty dicts before
    the previous session is resolved; otherwise the previous session is resolved
    first (its exceptions propagate) and the log is scanned once. -/
def get_yesterday_open_and_close_price (today : String) (symbols : List String)
    (log : Option (List LogLine)) :
    Except Unit (List (String × Option ℚ) × List (String × Option ℚ)) :=
  match log with
  | none => .ok ([], [])
  | some lines =>
    match get_yesterday_date today (some lines) with
    | .error e => .error e
    | .ok yd => gyocpAux yd symbols lines [] []

/-! ## `get_yesterday_profit` -/

/-- Round-half-to-even on rationals, the rounding Python `round` applies. -/
def roundHalfEven (x : ℚ) : ℤ :=
  let f := ⌊x⌋
  let r := x - f
  if r < 1 / 2 then f else if 1 / 2 < r then f + 1 else if f % 2 = 0 then f else f + 1

/-- Python `round(x, 4)`. -/
def round4 (x : ℚ) : ℚ := (roundHalfEven (x * 10000) : ℚ) / 10000

/-- The per-symbol profit of `get_yesterday_profit`: both prices must be known
    (present and not `None`) and the held quantity strictly positive, otherwise
    the profit defaults to `0.0`. -/
def profitFor (ybuy ysell : List (String × Option ℚ)) (ypos : List (String × ℚ))
    (symbol : String) : ℚ :=
  let bp : Option ℚ := (dget (symbol ++ "_price") ybuy).bind id
  let sp : Option ℚ := (dget (symbol ++ "_price") ysell).bind id
  let w : ℚ := (dget symbol ypos).getD 0
  match bp, sp with
  | some b, some sv => if 0 < w then round4 ((sv - b) * w) else 0
  | _, _ => 0

/-- `get_yesterday_profit(today_date, yesterday_buy_prices, yesterday_sell_prices,
    yesterday_init_position, stock_symbols)` from `tools/price_tools.py`.
    The `today_date` argument is unused by the source body. -/
def get_yesterday_profit (today_date : String) (ybuy ysell : List (String × Option ℚ))
    (ypos : List (String × ℚ)) (symbols : List String) : List (String × ℚ) :=
  let _ := today_date
  symbols.foldl (fun d s => dinsert s (profitFor ybuy ysell ypos s) d) []

/-! ## The position ledger -/

/-- The `this_action` object of a ledger record. -/
structure TradeAction where
  action : String
  symbol : String
  amount : Int
  deriving DecidableEq, Repr

/-- One parsed ledger record: `date` is absent when the JSON has no string
    `date` field, `id` embeds `doc.get("id", -1)`, `positions` embeds
    `doc.get("positions", {})`. -/
structure LRec where
  date : Option String
  id : Int
  thisAction : Option TradeAction
  positions : List (String × ℚ)
  deriving DecidableEq, Repr

/-- One line of a `position.jsonl` ledger file; `none` lines fail JSON parsing
    and are skipped by every reader. -/
abbrev LedgerLine := Option LRec

/-- One step of the highest-id-on-a-date scan shared by tiers 1 and 2 of
    `get_latest_position` (and by `get_today_init_position`): a record counts
    when its `date` equals the searched string and its id strictly exceeds the
    running maximum. -/
def tier1Step (d : String) (st : Int × List (String × ℚ)) (l : LedgerLine) :
    Int × List (String × ℚ) :=
  match l with
  | none => st
  | some r => if r.date = some d then (if st.1 < r.id then (r.id, r.positions) else st) else st

/-- The whole-file scan for the record with the largest id on a given date,
    starting from `max_id = -1` and empty positions. -/
def tier1 (d : String) (lines : List LedgerLine) : Int × List (String × ℚ) :=
  lines.foldl (tier1Step d) (-1, [])

/-- Whether a record qualifies for the tier-3 full-file fallback of
    `get_latest_position`: a truthy `date` whose normalized form parses to a
    datetime strictly earlier than the query, and nonempty positions. -/
def tier3Qual (tdt : DT) (r : LRec) : Bool :=
  match r.date with
  | none => false
  | some ds =>
    if ds = "" then false
    else
      match parseTS (normalizeTimestampStr ds) with
      | none => false
      | some (dt, _) => decide (dt.secs < tdt.secs) && decide (r.positions ≠ [])

/-- The sort key `(parsed date, id)` used by the tier-3 fallback. -/
def tier3Key (r : LRec) : Nat × Int :=
  (match r.date with
   | some ds =>
     match parseTS (normalizeTimestampStr ds) with
     | some (dt, _) => dt.secs
     | none => 0
   | none => 0,
   r.id)

/-- Strict lexicographic order on tier-3 sort keys. -/
def keyLt (a b : Nat × Int) : Prop := a.1 < b.1 ∨ (a.1 = b.1 ∧ a.2 < b.2)

instance : DecidablePred fun p : (Nat × Int) × Nat × Int => keyLt p.1 p.2 :=
  fun p => by unfold keyLt; infer_instance

instance (a b : Nat × Int) : Decidable (keyLt a b) := by unfold keyLt; infer_instance

/-- One step of the tier-3 selection. Sorting descending by key with Python's
    stable sort and taking the head returns the first record attaining the
    maximal key, which is what this fold computes. -/
def tier3Step (tdt : DT) (acc : Option LRec) (l : LedgerLine) : Option LRec :=
  match l with
  | none => acc
  | some r =>
    if tier3Qual tdt r then
      match acc with
      | none => some r
      | some b => if keyLt (tier3Key b) (tier3Key r) then some r else acc
    else acc

/-- The tier-3 fallback record of `get_latest_position`, if any. -/
def tier3Best (tdt : DT) (lines : List LedgerLine) : Option LRec :=
  lines.foldl (tier3Step tdt) none

/-- `get_latest_position(today_date, signature)` from `tools/price_tools.py`.
    The merged price log consulted by the internal `get_yesterday_date` call is
    `log`; the agent ledger file is `ledger` (`none` when the file is absent).
    Tier 1 searches records dated exactly `today`; it is committed only when the
    selected id is nonnegative and the selected positions are nonempty. Tier 2
    repeats the search on the resolved previous session. Tier 3 scans the whole
    file for the latest earlier record with nonempty positions; when it finds
    nothing the tier-2 values are returned unchanged. -/
def get_latest_position (today : String) (log : Option (List LogLine))
    (ledger : Option (List LedgerLine)) : Except Unit (List (String × ℚ) × Int) :=
  match ledger with
  | none => .ok ([], -1)
  | some lines =>
    let t1 := tier1 today lines
    if 0 ≤ t1.1 ∧ t1.2 ≠ [] then .ok (t1.2, t1.1)
    else
      match get_yesterday_date today log with
      | .error e => .error e
      | .ok prev =>
        let t2 := tier1 prev lines
        if t2.1 < 0 ∨ t2.2 = [] then
          match parseTS (normalizeTimestampStr today) with
          | none => .error ()
          | some (tdt, _) =>
            match tier3Best tdt lines with
            | some r => .ok (r.positions, r.id)
            | none => .ok (t2.2, t2.1)
        else .ok (t2.2, t2.1)

/-- `add_no_trade_record(today_date, signature)` from `tools/price_tools.py`:
    read the latest position, then append (file mode `"a"`, creating an absent
    file) one record carrying the positions forward with id `max_id + 1` and the
    fixed no-trade action. Returns the new file content. -/
def add_no_trade_record (today : String) (log : Option (List LogLine))
    (ledger : Option (List LedgerLine)) : Except Unit (List LedgerLine) :=
  match get_latest_position today log ledger with
  | .error e => .error e
  | .ok (pos, mid) =>
    .ok ((ledger.getD []) ++ [some ⟨some today, mid + 1, some ⟨"no_trade", "", 0⟩, pos⟩])

/-! ## `register_agent` (from `agent/base_agent_astock/base_agent_astock.py`) -/

/-- The init-date normalization inside `register_agent`: a date with a time
    part is kept verbatim when `strptime("%Y-%m-%d %H:%M:%S")` accepts it;
    only when that parse fails and the time part splits into exactly three
    colon-separated fields is the hour zero-filled; any other failure keeps the
    original string. -/
def normalize_init_date (s : String) : String :=
  if hasSpace s then
    match parseDateTime s with
    | some _ => s
    | none =>
      let dp := (splitOnce ' ' s.data).1
      let tp := (splitOnce ' ' s.data).2
      match splitOnC ':' tp with
      | [hh, mm, ss] => ⟨dp ++ ' ' :: zfill2 hh ++ ':' :: mm ++ ':' :: ss⟩
      | _ => s
  else s

/-- `register_agent` from `agent/base_agent_astock/base_agent_astock.py`: when
    the ledger file exists it is left untouched; otherwise exactly one record is
    written with id 0, every symbol at weight `0.0`, `CASH` at the initial
    cash, and the (possibly normalized) init date. -/
def register_agent (ledger : Option (List LedgerLine)) (symbols : List String)
    (initialCash : ℚ) (initDate : String) : Option (List LedgerLine) :=
  match ledger with
  | some content => some content
  | none =>
    let initPos := dinsert "CASH" initialCash (symbols.foldl (fun d s => dinsert s 0 d) [])
    some [some ⟨some (normalize_init_date initDate), 0, none, initPos⟩]

/-! ## Helper lemmas about Python-dict association lists -/

/-- The parsed records of a ledger file, in file order. -/
def recordsOf (lines : List LedgerLine) : List LRec := lines.filterMap id

theorem dget_dinsert_self {α : Type} (k : String) (v : α) (l : List (String × α)) :
    dget k (dinsert k v l) = some v := by
  induction l with
  | nil => simp [dinsert, dget]
  | cons hd tl ih =>
    obtain ⟨k', v'⟩ := hd
    by_cases h : k' = k
    · simp [dinsert, dget, h]
    · simp [dinsert, dget, h, ih]

theorem dget_dinsert_ne {α : Type} (k k' : String) (v : α) (l : List (String × α))
    (h : k' ≠ k) : dget k (dinsert k' v l) = dget k l := by
  induction l with
  | nil => simp [dinsert, dget, h]
  | cons hd tl ih =>
    obtain ⟨k₀, v₀⟩ := hd
    have hne : ¬(k = k') := fun hh => h hh.symm
    by_cases h0 : k₀ = k'
    · subst h0; simp [dinsert, dget, h, hne]
    · by_cases h1 : k₀ = k
      · subst h1; simp [dinsert, dget, h0, hne]
      · simp [dinsert, dget, h0, h1, ih]

theorem mem_recordsOf {lines : List LedgerLine} {r : LRec} :
    r ∈ recordsOf lines ↔ some r ∈ lines := by
  simp [recordsOf, List.mem_filterMap]

/-! ## Claim C1: idempotence of agent registration -/

/-- Claim C1: `register_agent` is idempotent. If the ledger file already
    exists, registering again is a no-op that returns the file content
    unchanged (nothing written, nothing truncated); consequently registering
    twice from any starting state equals registering once. -/
theorem registerAgent_idempotent :
    (∀ (content : List LedgerLine) (symbols : List String) (cash : ℚ) (d : String),
        register_agent (some content) symbols cash d = some content) ∧
    (∀ (st : Option (List LedgerLine)) (symbols : List String) (cash : ℚ) (d : String),
        register_agent (register_agent st symbols cash d) symbols cash d =
          register_agent st symbols cash d) := by
  refine ⟨fun content symbols cash d => rfl, fun st symbols cash d => ?_⟩
  cases st <;> rfl

/-! ## Claim C2: the no-trade record -/

/-- Claim C2: whenever `get_latest_position` returns positions `pos` with
    maximal id `mid`, `add_no_trade_record` leaves every existing line of the
    ledger unchanged and appends exactly one record whose positions are `pos`,
    whose id is `mid + 1`, whose date is the given timestamp, and whose action
    is the fixed no-trade action. -/
theorem addNoTradeRecord_appends (today : String) (log : Option (List LogLine))
    (ledger : Option (List LedgerLine)) (pos : List (String × ℚ)) (mid : Int)
    (h : get_latest_position today log ledger = .ok (pos, mid)) :
    add_no_trade_record today log ledger =
      .ok ((ledger.getD []) ++
        [some ⟨some today, mid + 1, some ⟨"no_trade", "", 0⟩, pos⟩]) := by
  unfold add_no_trade_record
  rw [h]

/-- Witness for C2 at a concrete input: an absent ledger yields `([], -1)`, so
    the appended record carries id 0, empty positions and the no-trade action. -/
theorem addNoTradeRecord_appends_witness :
    get_latest_position "2025-10-09" none none = .ok ([], -1) ∧
    add_no_trade_record "2025-10-09" none none =
      .ok [some ⟨some "2025-10-09", 0, some ⟨"no_trade", "", 0⟩, []⟩] := by
  refine ⟨rfl, ?_⟩
  have h := addNoTradeRecord_appends "2025-10-09" none none [] (-1) rfl
  simpa using h

/-! ## Claim C9: init-date normalization in `register_agent` -/

/-- Claim C9 (divergence witness): for the init date `"2025-10-09 9:30:00"`,
    whose time component is a valid `H:MM:SS` pattern with a single-digit hour,
    CPython `strptime("%Y-%m-%d %H:%M:%S")` accepts the single-digit hour, so
    `register_agent` writes the date verbatim and never zero-pads it, while the
    zero-fill branch runs only for strings `strptime` rejects. -/
theorem registerAgent_singleDigitHour_eval :
    register_agent none ["AAA"] 1000 "2025-10-09 9:30:00" =
      some [some ⟨some "2025-10-09 9:30:00", 0, none, [("AAA", 0), ("CASH", 1000)]⟩] ∧
    normalize_init_date "2025-10-09 9:30:00" = "2025-10-09 9:30:00" ∧
    ("2025-10-09 9:30:00" : String) ≠ "2025-10-09 09:30:00" ∧
    normalize_init_date "2025-13-09 9:30:00" = "2025-13-09 09:30:00" := by
  refine ⟨?_, ?_, ?_, ?_⟩ <;> decide

/-! ## Claim C8: per-symbol profit -/

theorem dget_foldl_dinsert (f : String → ℚ) (symbols : List String) (s : String)
    (acc : List (String × ℚ)) :
    dget s (symbols.foldl (fun d x => dinsert x (f x) d) acc) =
      if s ∈ symbols then some (f s) else dget s acc := by
  induction symbols generalizing acc with
  | nil => simp
  | cons a rest ih =>
    simp only [List.foldl_cons]
    rw [ih]
    by_cases hs : s ∈ rest
    · simp [hs, List.mem_cons]
    · by_cases ha : s = a
      · subst ha; simp [hs, dget_dinsert_self]
      · simp [hs, ha, List.mem_cons, dget_dinsert_ne s a (f a) acc (Ne.symm ha)]

/-- Claim C8: every symbol of the queried list receives an entry in the profit
    dict (never `None`); when both prices are known and the held quantity is
    strictly positive the entry is `(sell - buy) * quantity` rounded to four
    decimal places, and in every other case (missing or `None` price, zero or
    negative quantity, symbol absent from the position map so that the quantity
    defaults to zero) the entry is exactly `0.0`. -/
theorem getYesterdayProfit_spec (today : String) (ybuy ysell : List (String × Option ℚ))
    (ypos : List (String × ℚ)) (symbols : List String) (s : String) (hs : s ∈ symbols) :
    ∃ v : ℚ, dget s (get_yesterday_profit today ybuy ysell ypos symbols) = some v ∧
      (∀ b sv : ℚ, (dget (s ++ "_price") ybuy).bind id = some b →
          (dget (s ++ "_price") ysell).bind id = some sv →
          0 < (dget s ypos).getD 0 →
          v = round4 ((sv - b) * (dget s ypos).getD 0)) ∧
      (((dget (s ++ "_price") ybuy).bind id = none ∨
        (dget (s ++ "_price") ysell).bind id = none ∨
        (dget s ypos).getD 0 ≤ 0) → v = 0) := by
  refine ⟨profitFor ybuy ysell ypos s, ?_, ?_, ?_⟩
  · unfold get_yesterday_profit
    rw [dget_foldl_dinsert (profitFor ybuy ysell ypos) symbols s]
    simp [hs]
  · intro b sv hb hsv hw
    unfold profitFor
    rw [hb, hsv]
    simp [hw]
  · intro hcase
    unfold profitFor
    rcases hcase with hb | hsv | hw
    · rw [hb]
    · rcases hob : (dget (s ++ "_price") ybuy).bind id with _ | b
      · rfl
      · rw [hsv]
    · rcases hob : (dget (s ++ "_price") ybuy).bind id with _ | b
      · rfl
      · rcases hos : (dget (s ++ "_price") ysell).bind id with _ | sv
        · rfl
        · simp [not_lt.mpr hw]

/-- Witness for C8 at the spec scenario: buy 10, sell 11, quantity 100 gives
    profit 100; a symbol with no price data gives exactly 0. -/
theorem getYesterdayProfit_spec_witness :
    (∃ v : ℚ, dget "AAA" (get_yesterday_profit "2025-10-10"
        [("AAA_price", some 10)] [("AAA_price", some 11)] [("AAA", 100)] ["AAA", "BBB"]) =
        some v ∧ v = round4 ((11 - 10) * 100)) ∧
    (∃ v : ℚ, dget "BBB" (get_yesterday_profit "2025-10-10"
        [("AAA_price", some 10)] [("AAA_price", some 11)] [("AAA", 100)] ["AAA", "BBB"]) =
        some v ∧ v = 0) ∧
    round4 ((11 - 10) * 100 : ℚ) = 100 := by
  refine ⟨?_, ?_, by norm_num [round4, roundHalfEven]⟩
  · obtain ⟨v, hv, hgood, _⟩ := getYesterdayProfit_spec "2025-10-10"
      [("AAA_price", some 10)] [("AAA_price", some 11)] [("AAA", 100)] ["AAA", "BBB"] "AAA"
      (by decide)
    exact ⟨v, hv, hgood 10 11 (by decide) (by decide) (by decide)⟩
  · obtain ⟨v, hv, _, hzero⟩ := getYesterdayProfit_spec "2025-10-10"
      [("AAA_price", some 10)] [("AAA_price", some 11)] [("AAA", 100)] ["AAA", "BBB"] "BBB"
      (by decide)
    exact ⟨v, hv, hzero (Or.inl (by decide))⟩

/-! ## Claim C10: the buy and sell dicts always share their key set -/

/-- Decidable equality of `Except` results, for evaluating the embedding at
    concrete inputs. -/
instance exceptDecEq {ε α : Type} [DecidableEq ε] [DecidableEq α] :
    DecidableEq (Except ε α)
  | .error e, .error f =>
    if h : e = f then isTrue (by rw [h]) else isFalse (by intro hh; cases hh; exact h rfl)
  | .error _, .ok _ => isFalse (by intro h; cases h)
  | .ok _, .error _ => isFalse (by intro h; cases h)
  | .ok a, .ok b =>
    if h : a = b then isTrue (by rw [h]) else isFalse (by intro hh; cases hh; exact h rfl)

/-- Key list after a Python dict insertion: unchanged when the key is present,
    appended otherwise. -/
def insKey (k : String) (ks : List String) : List String :=
  if k ∈ ks then ks else ks ++ [k]

theorem map_fst_dinsert {α : Type} (k : String) (v : α) (l : List (String × α)) :
    (dinsert k v l).map Prod.fst = insKey k (l.map Prod.fst) := by
  induction l with
  | nil => simp [dinsert, insKey]
  | cons hd tl ih =>
    obtain ⟨k₀, v₀⟩ := hd
    by_cases h0 : k₀ = k
    · subst h0; simp [dinsert, insKey]
    · simp only [dinsert, if_neg h0, List.map_cons, ih, insKey, List.mem_cons]
      by_cases hk : k ∈ tl.map Prod.fst
      · simp [hk, h0, Ne.symm h0]
      · simp [hk, h0, Ne.symm h0]

theorem gyocpAux_keys (yd : String) (wanted : List String) (lines : List LogLine) :
    ∀ (bacc sacc : List (String × Option ℚ))
      (res : List (String × Option ℚ) × List (String × Option ℚ)),
      bacc.map Prod.fst = sacc.map Prod.fst →
      gyocpAux yd wanted lines bacc sacc = .ok res →
      res.1.map Prod.fst = res.2.map Prod.fst := by
  induction lines with
  | nil =>
    intro bacc sacc res hk h
    simp only [gyocpAux] at h
    cases h
    exact hk
  | cons l rest ih =>
    intro bacc sacc res hk h
    simp only [gyocpAux] at h
    rcases hline : gyocpLine yd wanted l with e | o
    · rw [hline] at h; cases h
    · rw [hline] at h
      match o, h with
      | none, h => exact ih bacc sacc res hk h
      | some (k, bv, sv), h =>
        refine ih _ _ res ?_ h
        rw [map_fst_dinsert, map_fst_dinsert, hk]

/-- Claim C10: whenever `get_yesterday_open_and_close_price` returns, the
    buy-price dict and the sell-price dict have exactly the same keys in the
    same insertion order: every branch that writes one writes the other. -/
theorem getYocp_sameKeys (today : String) (symbols : List String)
    (log : Option (List LogLine))
    (res : List (String × Option ℚ) × List (String × Option ℚ))
    (h : get_yesterday_open_and_close_price today symbols log = .ok res) :
    res.1.map Prod.fst = res.2.map Prod.fst := by
  cases log with
  | none =>
    simp only [get_yesterday_open_and_close_price] at h
    cases h; rfl
  | some lines =>
    simp only [get_yesterday_open_and_close_price] at h
    rcases hyd : get_yesterday_date today (some lines) with e | yd <;> rw [hyd] at h
    · cases h
    · exact gyocpAux_keys yd symbols lines [] [] res rfl h

/-- Witness for C10 at a concrete input: one symbol line with no bar on the
    resolved previous session still writes both dicts (with `None`), and the
    key lists agree. -/
theorem getYocp_sameKeys_witness :
    get_yesterday_open_and_close_price "2025-10-09" ["AAA"]
        (some [some (.obj [("Meta Data", .obj [("2. Symbol", .str "AAA")]),
          ("Time Series (Daily)",
            .obj [("2025-10-09", .obj [("1. buy price", .str "10.5")])])])]) =
      .ok ([("AAA_price", none)], [("AAA_price", none)]) ∧
    ([("AAA_price", (none : Option ℚ))].map Prod.fst =
      [("AAA_price", (none : Option ℚ))].map Prod.fst) := by
  have h : get_yesterday_open_and_close_price "2025-10-09" ["AAA"]
      (some [some (.obj [("Meta Data", .obj [("2. Symbol", .str "AAA")]),
        ("Time Series (Daily)",
          .obj [("2025-10-09", .obj [("1. buy price", .str "10.5")])])])]) =
      .ok ([("AAA_price", none)], [("AAA_price", none)]) := by decide
  exact ⟨h, getYocp_sameKeys _ _ _ _ h⟩

/-! ## Claims C7 and C5: `get_latest_position` resolution -/

theorem tier1_foldl_no_match (d : String) (lines : List LedgerLine)
    (h : ∀ r ∈ recordsOf lines, r.date ≠ some d) :
    ∀ init : Int × List (String × ℚ), lines.foldl (tier1Step d) init = init := by
  induction lines with
  | nil => intro init; rfl
  | cons l rest ih =>
    intro init
    have hrest : ∀ r ∈ recordsOf rest, r.date ≠ some d := by
      intro r hr
      exact h r (by rw [mem_recordsOf] at hr ⊢; exact List.mem_cons_of_mem _ hr)
    rw [List.foldl_cons]
    cases l with
    | none => rw [show tier1Step d init none = init from rfl]; exact ih hrest init
    | some r =>
      have hr : r.date ≠ some d := h r (mem_recordsOf.mpr (List.mem_cons_self _ _))
      have hstep : tier1Step d init (some r) = init := by
        simp [tier1Step, hr]
      rw [hstep]; exact ih hrest init

theorem tier3Best_none (tdt : DT) (lines : List LedgerLine)
    (h : ∀ r ∈ recordsOf lines, tier3Qual tdt r = false) :
    tier3Best tdt lines = none := by
  have key : ∀ acc : Option LRec, lines.foldl (tier3Step tdt) acc = acc := by
    induction lines with
    | nil => intro acc; rfl
    | cons l rest ih =>
      intro acc
      have hrest : ∀ r ∈ recordsOf rest, tier3Qual tdt r = false := by
        intro r hr
        exact h r (by rw [mem_recordsOf] at hr ⊢; exact List.mem_cons_of_mem _ hr)
      rw [List.foldl_cons]
      cases l with
      | none => exact ih hrest acc
      | some r =>
        have hr := h r (mem_recordsOf.mpr (List.mem_cons_self _ _))
        have hstep : tier3Step tdt acc (some r) = acc := by
          simp [tier3Step, hr]
        rw [hstep]; exact ih hrest acc
  exact key none

/-- Claim C7: `get_latest_position` returns the default `({}, -1)` and raises
    nothing when the ledger file is absent, and likewise when the file exists
    (for a parseable query whose previous session resolves) but no record
    qualifies under any tier: no record dated exactly at the query, no record
    dated at the resolved previous session, and no record passing the tier-3
    filter (truthy parseable earlier date with nonempty positions). -/
theorem getLatestPosition_default :
    (∀ (today : String) (log : Option (List LogLine)),
        get_latest_position today log none = .ok ([], -1)) ∧
    (∀ (today : String) (log : Option (List LogLine)) (lines : List LedgerLine)
        (prev : String) (tdt : DT) (g : Bool),
        (∀ r ∈ recordsOf lines, r.date ≠ some today) →
        get_yesterday_date today log = .ok prev →
        (∀ r ∈ recordsOf lines, r.date ≠ some prev) →
        parseTS (normalizeTimestampStr today) = some (tdt, g) →
        (∀ r ∈ recordsOf lines, tier3Qual tdt r = false) →
        get_latest_position today log (some lines) = .ok ([], -1)) := by
  constructor
  · intro today log; rfl
  · intro today log lines prev tdt g h1 hprev h2 htd h3
    have ht1 : tier1 today lines = (-1, []) := tier1_foldl_no_match today lines h1 _
    have ht2 : tier1 prev lines = (-1, []) := tier1_foldl_no_match prev lines h2 _
    have ht3 : tier3Best tdt lines = none := tier3Best_none tdt lines h3
    simp only [get_latest_position, ht1]
    rw [if_neg (by simp), hprev]
    simp only [ht2]
    rw [if_pos (by simp), htd]
    dsimp only
    rw [ht3]

/-- Witness for C7 at concrete inputs: an absent ledger, and a ledger whose
    only record is dated after the query, both give `([], -1)`. -/
theorem getLatestPosition_default_witness :
    get_latest_position "2025-10-09" none none = .ok ([], -1) ∧
    get_latest_position "2025-10-09" none
        (some [some ⟨some "2025-12-31", 4, none, [("AAA", 1)]⟩]) = .ok ([], -1) := by
  constructor
  · exact getLatestPosition_default.1 "2025-10-09" none
  · exact getLatestPosition_default.2 "2025-10-09" none
      [some ⟨some "2025-12-31", 4, none, [("AAA", 1)]⟩] "2025-10-08"
      ⟨2025, 10, 9, 0, 0, 0⟩ true (by decide) (by decide) (by decide) (by decide) (by decide)

/-- Characterization of the shared highest-id-on-a-date fold: the result id
    only grows, it is attained by a record of the file unless the fold never
    fired, and it bounds the id of every record carrying the searched date. -/
theorem tier1_foldl_spec (d : String) (lines : List LedgerLine) :
    ∀ init : Int × List (String × ℚ),
      init.1 ≤ (lines.foldl (tier1Step d) init).1 ∧
      ((lines.foldl (tier1Step d) init) = init ∨
        ∃ r ∈ recordsOf lines, r.date = some d ∧
          r.id = (lines.foldl (tier1Step d) init).1 ∧
          r.positions = (lines.foldl (tier1Step d) init).2) ∧
      (∀ r ∈ recordsOf lines, r.date = some d → r.id ≤ (lines.foldl (tier1Step d) init).1) := by
  induction lines with
  | nil => intro init; exact ⟨le_refl _, Or.inl rfl, by simp [recordsOf]⟩
  | cons l rest ih =>
    intro init
    rw [List.foldl_cons]
    have hmem : ∀ r : LRec, r ∈ recordsOf rest → r ∈ recordsOf (l :: rest) := by
      intro r hr
      rw [mem_recordsOf] at hr ⊢
      exact List.mem_cons_of_mem _ hr
    cases l with
    | none =>
      obtain ⟨ha, hb, hc⟩ := ih init
      rw [show tier1Step d init none = init from rfl]
      refine ⟨ha, ?_, ?_⟩
      · rcases hb with hb | ⟨r, hr, hrest⟩
        · exact Or.inl hb
        · exact Or.inr ⟨r, hmem r hr, hrest⟩
      · intro r hr hd
        rcases mem_recordsOf.mp hr with hcase
        rcases List.mem_cons.mp hcase with hcase0 | hcase1
        · cases hcase0
        · exact hc r (mem_recordsOf.mpr hcase1) hd
    | some r0 =>
      by_cases hd0 : r0.date = some d
      · by_cases hlt : init.1 < r0.id
        · have hstep : tier1Step d init (some r0) = (r0.id, r0.positions) := by
            simp [tier1Step, hd0, hlt]
          rw [hstep]
          obtain ⟨ha, hb, hc⟩ := ih (r0.id, r0.positions)
          refine ⟨le_trans (le_of_lt hlt) ha, ?_, ?_⟩
          · rcases hb with hb | ⟨r, hr, hd1, hid1, hp1⟩
            · refine Or.inr ⟨r0, mem_recordsOf.mpr (List.mem_cons_self _ _), hd0, ?_, ?_⟩
              · rw [hb]
              · rw [hb]
            · exact Or.inr ⟨r, hmem r hr, hd1, hid1, hp1⟩
          · intro r hr hd1
            rcases List.mem_cons.mp (mem_recordsOf.mp hr) with hcase0 | hcase1
            · cases hcase0; exact ha
            · exact hc r (mem_recordsOf.mpr hcase1) hd1
        · have hstep : tier1Step d init (some r0) = init := by
            simp [tier1Step, hd0, hlt]
          rw [hstep]
          obtain ⟨ha, hb, hc⟩ := ih init
          refine ⟨ha, ?_, ?_⟩
          · rcases hb with hb | ⟨r, hr, hrest⟩
            · exact Or.inl hb
            · exact Or.inr ⟨r, hmem r hr, hrest⟩
          · intro r hr hd1
            rcases List.mem_cons.mp (mem_recordsOf.mp hr) with hcase0 | hcase1
            · cases hcase0; exact le_trans (not_lt.mp hlt) ha
            · exact hc r (mem_recordsOf.mpr hcase1) hd1
      · have hstep : tier1Step d init (some r0) = init := by
          simp [tier1Step, hd0]
        rw [hstep]
        obtain ⟨ha, hb, hc⟩ := ih init
        refine ⟨ha, ?_, ?_⟩
        · rcases hb with hb | ⟨r, hr, hrest⟩
          · exact Or.inl hb
          · exact Or.inr ⟨r, hmem r hr, hrest⟩
        · intro r hr hd1
          rcases List.mem_cons.mp (mem_recordsOf.mp hr) with hcase0 | hcase1
          · cases hcase0; exact absurd hd1 hd0
          · exact hc r (mem_recordsOf.mpr hcase1) hd1

/-- Claim C5, amended: whenever the tier-1 scan for the query date selects a
    nonnegative id together with nonempty positions, `get_latest_position`
    returns exactly that selection — for every price log, so neither the
    previous session nor the full-file fallback is consulted — and the
    selection is a record of the file dated at the query whose id is maximal
    among all records dated at the query. -/
theorem getLatestPosition_tier1_amended (today : String) (lines : List LedgerLine)
    (hid : 0 ≤ (tier1 today lines).1) (hpos : (tier1 today lines).2 ≠ []) :
    (∀ log : Option (List LogLine),
        get_latest_position today log (some lines) =
          .ok ((tier1 today lines).2, (tier1 today lines).1)) ∧
    (∃ r ∈ recordsOf lines, r.date = some today ∧
        r.id = (tier1 today lines).1 ∧ r.positions = (tier1 today lines).2) ∧
    (∀ r ∈ recordsOf lines, r.date = some today → r.id ≤ (tier1 today lines).1) := by
  obtain ⟨ha, hb, hc⟩ := tier1_foldl_spec today lines (-1, [])
  refine ⟨?_, ?_, hc⟩
  · intro log
    simp only [get_latest_position]
    rw [if_pos ⟨hid, hpos⟩]
  · rcases hb with hb | hex
    · exfalso
      have : (tier1 today lines).1 = -1 := by rw [show tier1 today lines = lines.foldl (tier1Step today) (-1, []) from rfl, hb]
      omega
    · exact hex

/-- Counterexample for C5 as stated: a ledger whose only record is dated at
    the query with id 0 but empty positions. The claim predicts `([], 0)`
    from the same-date record with the highest id, but the code falls through
    tier 1 (empty positions), finds nothing later, and returns `([], -1)`. -/
theorem getLatestPosition_tier1_cex :
    get_latest_position "2025-10-09" none
        (some [some ⟨some "2025-10-09", 0, none, []⟩]) = .ok ([], -1) ∧
    ((recordsOf [some ⟨some "2025-10-09", 0, none, []⟩]).map
        (fun r => (r.date, r.id)) = [(some "2025-10-09", 0)]) ∧
    ((Except.ok (([], -1) : List (String × ℚ) × Int) : Except Unit (List (String × ℚ) × Int)) ≠
      Except.ok ([], 0)) := by
  refine ⟨by decide, by decide, by decide⟩

/-- Witness for the amended C5: two same-date records, the higher id wins and
    the price log is irrelevant. -/
theorem getLatestPosition_tier1_witness :
    tier1 "2025-10-09" [some ⟨some "2025-10-09", 0, none, [("AAA", 1)]⟩,
        some ⟨some "2025-10-09", 1, none, [("AAA", 2)]⟩] = (1, [("AAA", 2)]) ∧
    get_latest_position "2025-10-09" none
        (some [some ⟨some "2025-10-09", 0, none, [("AAA", 1)]⟩,
          some ⟨some "2025-10-09", 1, none, [("AAA", 2)]⟩]) = .ok ([("AAA", 2)], 1) := by
  have h := getLatestPosition_tier1_amended "2025-10-09"
    [some ⟨some "2025-10-09", 0, none, [("AAA", 1)]⟩,
      some ⟨some "2025-10-09", 1, none, [("AAA", 2)]⟩] (by decide) (by decide)
  refine ⟨by decide, ?_⟩
  have h2 := h.1 none
  rw [h2]
  decide

/-! ## Claim C4: the calendar fallback of `get_yesterday_date` -/

theorem skipWeekendF_succ (n d : Nat) :
    skipWeekendF (n + 1) d = if 5 ≤ weekdayOf d then skipWeekendF n (d - 1) else d := rfl

/-- The weekend-skipping loop reaches, in at most two steps, the greatest
    weekday day number not exceeding its start. -/
theorem skip7_spec (d : Nat) (hd : 1 ≤ d) :
    skipWeekendF 7 d ≤ d ∧ 1 ≤ skipWeekendF 7 d ∧ weekdayOf (skipWeekendF 7 d) < 5 ∧
    ∀ e, skipWeekendF 7 d < e → e ≤ d → 5 ≤ weekdayOf e := by
  by_cases h1 : 5 ≤ weekdayOf d
  · by_cases h2 : weekdayOf d = 5
    · have hd6 : 6 ≤ d := by unfold weekdayOf at h2; omega
      have hw2 : weekdayOf (d - 1) < 5 := by unfold weekdayOf at h2 ⊢; omega
      have hres : skipWeekendF 7 d = d - 1 := by
        rw [show (7 : Nat) = 6 + 1 from rfl, skipWeekendF_succ, if_pos h1,
            show (6 : Nat) = 5 + 1 from rfl, skipWeekendF_succ, if_neg (not_le.mpr hw2)]
      rw [hres]
      refine ⟨by omega, by omega, hw2, ?_⟩
      intro e he1 he2
      have he : e = d := by omega
      subst he
      exact h1
    · have h6 : weekdayOf d = 6 := by
        have h7 : weekdayOf d < 7 := Nat.mod_lt _ (by norm_num)
        omega
      have hd7 : 7 ≤ d := by unfold weekdayOf at h6; omega
      have hw1 : 5 ≤ weekdayOf (d - 1) := by unfold weekdayOf at h6 ⊢; omega
      have hw2 : weekdayOf (d - 1 - 1) < 5 := by unfold weekdayOf at h6 ⊢; omega
      have hres : skipWeekendF 7 d = d - 2 := by
        rw [show (7 : Nat) = 6 + 1 from rfl, skipWeekendF_succ, if_pos h1,
            show (6 : Nat) = 5 + 1 from rfl, skipWeekendF_succ, if_pos hw1,
            show (5 : Nat) = 4 + 1 from rfl, skipWeekendF_succ, if_neg (not_le.mpr hw2)]
        omega
      rw [hres]
      refine ⟨by omega, by omega, ?_, ?_⟩
      · have : d - 2 = d - 1 - 1 := by omega
        rw [this]; exact hw2
      · intro e he1 he2
        have he : e = d ∨ e = d - 1 := by omega
        rcases he with he | he <;> subst he
        · exact h1
        · exact hw1
  · have hres : skipWeekendF 7 d = d := by
      rw [show (7 : Nat) = 6 + 1 from rfl, skipWeekendF_succ, if_neg h1]
    rw [hres]
    exact ⟨le_refl d, hd, by omega, fun e he1 he2 => absurd (lt_of_lt_of_le he1 he2) (lt_irrefl d)⟩

/-- Any of the three trigger conditions (absent file, no collected timestamps,
    no parseable timestamp strictly earlier) routes `get_yesterday_date` into
    the calendar fallback. -/
theorem gyd_fallback_of_trigger (today : String) (inp : DT) (dOnly : Bool)
    (log : Option (List LogLine))
    (hp : parseTS today = some (inp, dOnly))
    (htr : log = none ∨ collectTS (log.getD []) = [] ∨
      bestPrev inp (collectTS (log.getD [])) = none) :
    get_yesterday_date today log = gydFallback dOnly inp := by
  cases log with
  | none =>
    simp only [get_yesterday_date, hp]
  | some lines =>
    simp only [get_yesterday_date, hp]
    rcases htr with h | h | h
    · cases h
    · simp only [Option.getD] at h
      rw [if_pos h]
    · by_cases hc : collectTS lines = []
      · rw [if_pos hc]
      · rw [if_neg hc]
        simp only [Option.getD] at h
        rw [h]

/-- Claim C4: when the fallback triggers (absent log file, no timestamp keys,
    or no parseable key strictly earlier than the input), a date-only input
    yields the greatest calendar day strictly before the input that is not a
    Saturday or Sunday (weekday below 5 in Python numbering), and an input
    with a time component yields exactly the input minus one hour rendered in
    date+time format. The day-number side conditions keep the Python
    `datetime` range (year at least 1). -/
theorem getYesterdayDate_fallback_spec (today : String) (inp : DT) (dOnly : Bool)
    (log : Option (List LogLine))
    (hp : parseTS today = some (inp, dOnly))
    (htr : log = none ∨ collectTS (log.getD []) = [] ∨
      bestPrev inp (collectTS (log.getD [])) = none) :
    (dOnly = true → 2 ≤ inp.dayNum →
        get_yesterday_date today log = .ok (renderDate (skipWeekendF 7 (inp.dayNum - 1))) ∧
        skipWeekendF 7 (inp.dayNum - 1) < inp.dayNum ∧
        weekdayOf (skipWeekendF 7 (inp.dayNum - 1)) < 5 ∧
        (∀ e, skipWeekendF 7 (inp.dayNum - 1) < e → e < inp.dayNum → 5 ≤ weekdayOf e)) ∧
    (dOnly = false → 90000 ≤ inp.secs →
        get_yesterday_date today log = .ok (renderDT (dtFromSecs (inp.secs - 3600)))) := by
  have hfb := gyd_fallback_of_trigger today inp dOnly log hp htr
  constructor
  · intro hdo hday
    subst hdo
    obtain ⟨hs1, hs2, hs3, hs4⟩ := skip7_spec (inp.dayNum - 1) (by omega)
    have hres : get_yesterday_date today log =
        .ok (renderDate (skipWeekendF 7 (inp.dayNum - 1))) := by
      rw [hfb]
      have hnot : ¬ (inp.dayNum ≤ 1) := by omega
      simp [gydFallback, hnot]
    have hlt : skipWeekendF 7 (inp.dayNum - 1) < inp.dayNum :=
      lt_of_le_of_lt hs1 (Nat.sub_lt (by omega) (by norm_num))
    exact ⟨hres, hlt, hs3, fun e he1 he2 => hs4 e he1 (Nat.le_pred_of_lt he2)⟩
  · intro hdo hsec
    subst hdo
    rw [hfb]
    have hnot : ¬ (inp.secs < 90000) := by omega
    simp [gydFallback, hnot]

/-- Witness for C4: Monday 2025-10-13 with an absent log falls back to Friday
    2025-10-10, and an hourly input falls back to one hour earlier. -/
theorem getYesterdayDate_fallback_witness :
    parseTS "2025-10-13" = some (⟨2025, 10, 13, 0, 0, 0⟩, true) ∧
    get_yesterday_date "2025-10-13" none =
      .ok (renderDate (skipWeekendF 7 (DT.dayNum ⟨2025, 10, 13, 0, 0, 0⟩ - 1))) ∧
    renderDate (skipWeekendF 7 (DT.dayNum ⟨2025, 10, 13, 0, 0, 0⟩ - 1)) = "2025-10-10" ∧
    get_yesterday_date "2025-10-13 10:30:00" none =
      .ok (renderDT (dtFromSecs (DT.secs ⟨2025, 10, 13, 10, 30, 0⟩ - 3600))) ∧
    renderDT (dtFromSecs (DT.secs ⟨2025, 10, 13, 10, 30, 0⟩ - 3600)) = "2025-10-13 09:30:00" := by
  refine ⟨by decide, ?_, by decide, ?_, by decide⟩
  · exact ((getYesterdayDate_fallback_spec "2025-10-13" ⟨2025, 10, 13, 0, 0, 0⟩ true none
      (by decide) (Or.inl rfl)).1 rfl (by decide)).1
  · exact (getYesterdayDate_fallback_spec "2025-10-13 10:30:00" ⟨2025, 10, 13, 10, 30, 0⟩ false none
      (by decide) (Or.inl rfl)).2 rfl (by decide)

/-! ## Claim C3: the log-driven previous-session scan -/

set_option maxRecDepth 8192

theorem bestPrevStep_cases (inp : DT) (acc : Option DT) (ts : String) :
    (bestPrevStep inp acc ts = acc ∧
      ∀ t : DT, parseDateTime ts = some t → ¬ t.secs < inp.secs) ∨
    (∃ t : DT, parseDateTime ts = some t ∧ t.secs < inp.secs ∧
      bestPrevStep inp acc ts = some t ∧ ∀ p : DT, acc = some p → p.secs ≤ t.secs) ∨
    (∃ t p : DT, parseDateTime ts = some t ∧ t.secs < inp.secs ∧ acc = some p ∧
      bestPrevStep inp acc ts = some p ∧ t.secs ≤ p.secs) := by
  rcases hpt : parseDateTime ts with _ | t
  · refine Or.inl ⟨by simp [bestPrevStep, hpt], ?_⟩
    intro t ht
    exact Option.noConfusion ht
  · by_cases hlt : t.secs < inp.secs
    · cases acc with
      | none =>
        refine Or.inr (Or.inl ⟨t, rfl, hlt, ?_, ?_⟩)
        · simp [bestPrevStep, hpt, hlt]
        · intro p hp
          exact Option.noConfusion hp
      | some p =>
        by_cases hps : p.secs < t.secs
        · refine Or.inr (Or.inl ⟨t, rfl, hlt, ?_, ?_⟩)
          · simp [bestPrevStep, hpt, hlt, hps]
          · intro p' hp'
            have hpe := Option.some_inj.mp hp'
            rw [← hpe]
            exact le_of_lt hps
        · exact Or.inr (Or.inr ⟨t, p, rfl, hlt, rfl,
            by simp [bestPrevStep, hpt, hlt, hps], not_lt.mp hps⟩)
    · refine Or.inl ⟨by simp [bestPrevStep, hpt, hlt], ?_⟩
      intro t' ht'
      have hte := Option.some_inj.mp ht'
      rw [← hte]
      exact hlt

theorem bestPrev_foldl_spec (inp : DT) (l : List String) :
    ∀ acc : Option DT, (∀ p : DT, acc = some p → p.secs < inp.secs) →
      (l.foldl (bestPrevStep inp) acc = none →
        acc = none ∧ ∀ ts ∈ l, ∀ t : DT, parseDateTime ts = some t → ¬ t.secs < inp.secs) ∧
      (∀ m : DT, l.foldl (bestPrevStep inp) acc = some m →
        (acc = some m ∨ ∃ ts ∈ l, parseDateTime ts = some m) ∧ m.secs < inp.secs ∧
        (∀ ts ∈ l, ∀ t : DT, parseDateTime ts = some t → t.secs < inp.secs → t.secs ≤ m.secs) ∧
        (∀ p : DT, acc = some p → p.secs ≤ m.secs)) := by
  induction l with
  | nil =>
    intro acc hacc
    constructor
    · intro h
      exact ⟨h, by simp⟩
    · intro m h
      simp only [List.foldl_nil] at h
      refine ⟨Or.inl h, hacc m h, by simp, ?_⟩
      intro p hp
      rw [h] at hp
      cases hp
      exact le_refl _
  | cons ts0 rest ih =>
    intro acc hacc
    rw [show ∀ a, (ts0 :: rest).foldl (bestPrevStep inp) a =
          rest.foldl (bestPrevStep inp) (bestPrevStep inp a ts0) from fun a => rfl]
    have hacc' : ∀ p : DT, bestPrevStep inp acc ts0 = some p → p.secs < inp.secs := by
      rcases bestPrevStep_cases inp acc ts0 with ⟨heq, _⟩ | ⟨t, _, hlt, heq, _⟩ |
          ⟨t, p, _, _, hap, heq, _⟩
      · rw [heq]; exact hacc
      · rw [heq]; intro p hp; cases hp; exact hlt
      · rw [heq]; intro p' hp'; cases hp'; exact hacc _ hap
    obtain ⟨IH1, IH2⟩ := ih (bestPrevStep inp acc ts0) hacc'
    constructor
    · intro h
      obtain ⟨hstep, hrest⟩ := IH1 h
      rcases bestPrevStep_cases inp acc ts0 with ⟨heq, hno⟩ | ⟨t, _, _, heq, _⟩ |
          ⟨t, p, _, _, _, heq, _⟩
      · rw [heq] at hstep
        refine ⟨hstep, ?_⟩
        intro ts hts t ht
        rcases List.mem_cons.mp hts with h0 | h0
        · subst h0; exact hno t ht
        · exact hrest ts h0 t ht
      · rw [heq] at hstep; cases hstep
      · rw [heq] at hstep; cases hstep
    · intro m h
      obtain ⟨horig, hmlt, hub, hmono⟩ := IH2 m h
      rcases bestPrevStep_cases inp acc ts0 with ⟨heq, hno⟩ | ⟨t, hpt, hlt, heq, hle⟩ |
          ⟨t, p, hpt, hlt, hap, heq, hle⟩
      · -- step left acc unchanged; ts0 contributes no earlier parse
        refine ⟨?_, hmlt, ?_, ?_⟩
        · rcases horig with h0 | ⟨ts, hts, hparse⟩
          · rw [heq] at h0; exact Or.inl h0
          · exact Or.inr ⟨ts, List.mem_cons_of_mem _ hts, hparse⟩
        · intro ts hts t' ht' hlt'
          rcases List.mem_cons.mp hts with h0 | h0
          · subst h0; exact absurd hlt' (hno t' ht')
          · exact hub ts h0 t' ht' hlt'
        · intro p hp
          apply hmono p
          rw [heq, hp]
      · -- step replaced the accumulator with ts0's parse
        refine ⟨?_, hmlt, ?_, ?_⟩
        · rcases horig with h0 | ⟨ts, hts, hparse⟩
          · rw [heq] at h0
            have h0e := Option.some_inj.mp h0
            exact Or.inr ⟨ts0, List.mem_cons_self _ _, hpt.trans (congrArg some h0e)⟩
          · exact Or.inr ⟨ts, List.mem_cons_of_mem _ hts, hparse⟩
        · intro ts hts t' ht' hlt'
          rcases List.mem_cons.mp hts with h0 | h0
          · subst h0
            rw [hpt] at ht'
            have hte := Option.some_inj.mp ht'
            rw [← hte]
            exact hmono t heq
          · exact hub ts h0 t' ht' hlt'
        · intro p hp
          exact le_trans (hle p hp) (hmono t heq)
      · -- ts0 parsed earlier but did not beat the accumulator
        refine ⟨?_, hmlt, ?_, ?_⟩
        · rcases horig with h0 | ⟨ts, hts, hparse⟩
          · rw [heq] at h0
            have h0e := Option.some_inj.mp h0
            exact Or.inl (hap.trans (congrArg some h0e))
          · exact Or.inr ⟨ts, List.mem_cons_of_mem _ hts, hparse⟩
        · intro ts hts t' ht' hlt'
          rcases List.mem_cons.mp hts with h0 | h0
          · subst h0
            rw [hpt] at ht'
            have hte := Option.some_inj.mp ht'
            rw [← hte]
            exact le_trans hle (hmono p heq)
          · exact hub ts h0 t' ht' hlt'
        · intro p' hp'
          have hpp : p = p' := Option.some_inj.mp (hap.symm.trans hp')
          rw [← hpp]
          exact hmono p heq

/-- Claim C3, amended: whenever the first time-series block of some parseable
    line contributes a key that parses in the date+time format
    `YYYY-MM-DD H:MM:SS` and is chronologically strictly earlier than the
    input, `get_yesterday_date` returns the chronologically greatest such
    parsed key, re-rendered in the granularity of the input; keys that fail the
    date+time parse — in particular every date-only key — are ignored. -/
theorem getYesterdayDate_logScan_amended (today : String) (inp : DT) (dOnly : Bool)
    (lines : List LogLine) (ts0 : String) (t0 : DT)
    (hp : parseTS today = some (inp, dOnly))
    (h0 : ts0 ∈ collectTS lines) (hpt : parseDateTime ts0 = some t0)
    (hlt : t0.secs < inp.secs) :
    ∃ m : DT, bestPrev inp (collectTS lines) = some m ∧
      (∃ ts ∈ collectTS lines, parseDateTime ts = some m) ∧
      m.secs < inp.secs ∧
      (∀ ts ∈ collectTS lines, ∀ t : DT, parseDateTime ts = some t →
        t.secs < inp.secs → t.secs ≤ m.secs) ∧
      get_yesterday_date today (some lines) =
        .ok (if dOnly then renderDate m.dayNum else renderDT m) := by
  obtain ⟨H1, H2⟩ := bestPrev_foldl_spec inp (collectTS lines) none (by intro p hp0; cases hp0)
  rcases hbp : bestPrev inp (collectTS lines) with _ | m
  · obtain ⟨_, hall⟩ := H1 hbp
    exact absurd hlt (hall ts0 h0 t0 hpt)
  · obtain ⟨horig, hmlt, hub, _⟩ := H2 m hbp
    have hprov : ∃ ts ∈ collectTS lines, parseDateTime ts = some m := by
      rcases horig with h | h
      · cases h
      · exact h
    refine ⟨m, rfl, hprov, hmlt, hub, ?_⟩
    simp only [get_yesterday_date, hp]
    rw [if_neg (List.ne_nil_of_mem h0), hbp]

/-- Counterexample for C3 as stated: a daily log whose only time-series key is
    the date-only string `"2025-10-06"`, chronologically strictly earlier than
    the input `"2025-10-09"`. The claim predicts the maximum earlier key
    `"2025-10-06"` re-rendered; the code skips every date-only key (its scan
    parses only the date+time format), finds nothing, and falls back to the
    naive calendar, returning `"2025-10-08"`. -/
theorem getYesterdayDate_logScan_cex :
    collectTS [some (.obj [("Time Series (Daily)", .obj [("2025-10-06", .obj [])])])] =
      ["2025-10-06"] ∧
    parseTS "2025-10-06" = some (⟨2025, 10, 6, 0, 0, 0⟩, true) ∧
    parseTS "2025-10-09" = some (⟨2025, 10, 9, 0, 0, 0⟩, true) ∧
    DT.secs ⟨2025, 10, 6, 0, 0, 0⟩ < DT.secs ⟨2025, 10, 9, 0, 0, 0⟩ ∧
    get_yesterday_date "2025-10-09"
        (some [some (.obj [("Time Series (Daily)", .obj [("2025-10-06", .obj [])])])]) =
      .ok "2025-10-08" ∧
    ("2025-10-08" : String) ≠ "2025-10-06" := by
  refine ⟨by decide, by decide, by decide, by decide, by decide, by decide⟩

/-- Witness for the amended C3: an hourly log with keys on 2025-10-08 and
    2025-10-09; querying the date 2025-10-09 returns the 2025-10-08 key,
    re-rendered date-only. -/
theorem getYesterdayDate_logScan_witness :
    get_yesterday_date "2025-10-09"
        (some [some (.obj [("Time Series (60min)",
          .obj [("2025-10-08 14:30:00", .obj []), ("2025-10-09 10:30:00", .obj [])])])]) =
      .ok "2025-10-08" := by
  obtain ⟨m, hbp, _, _, _, hres⟩ := getYesterdayDate_logScan_amended "2025-10-09"
    ⟨2025, 10, 9, 0, 0, 0⟩ true
    [some (.obj [("Time Series (60min)",
      .obj [("2025-10-08 14:30:00", .obj []), ("2025-10-09 10:30:00", .obj [])])])]
    "2025-10-08 14:30:00" ⟨2025, 10, 8, 14, 30, 0⟩
    (by decide) (by decide) (by decide) (by decide)
  have hm : m = ⟨2025, 10, 8, 14, 30, 0⟩ := by
    have hconc : bestPrev ⟨2025, 10, 9, 0, 0, 0⟩ (collectTS
        [some (.obj [("Time Series (60min)",
          .obj [("2025-10-08 14:30:00", .obj []), ("2025-10-09 10:30:00", .obj [])])])]) =
        some ⟨2025, 10, 8, 14, 30, 0⟩ := by decide
    rw [hconc] at hbp
    exact (Option.some_inj.mp hbp.symm)
  subst hm
  rw [hres]
  decide

/-! ## Claim C6: missing-data behaviour of `get_open_prices` -/

/-- Whether a log line makes `get_open_prices` (and the sibling reader) raise:
    a parseable object line whose `"Meta Data"` value is present but not an
    object (Python then calls `.get` on a non-dict and raises `AttributeError`
    outside the per-line `try`). -/
def badMeta : LogLine → Bool
  | some (.obj entries) =>
    match jget "Meta Data" entries with
    | some (.obj _) => false
    | some _ => true
    | none => false
  | _ => false

/-- Whether a log line carries the requested symbol: a parseable object line
    whose `"Meta Data"` object maps `"2. Symbol"` to exactly that string. -/
def matchesSymB (s : String) : LogLine → Bool
  | some (.obj entries) =>
    match jget "Meta Data" entries with
    | some (.obj mentries) =>
      match jget "2. Symbol" mentries with
      | some (.str s') => s' == s
      | _ => false
    | _ => false
  | _ => false

/-- The dictionary value a symbol-matching line contributes in
    `get_open_prices`: `none` when the line writes nothing (no time-series
    object or no bar object at the timestamp), `some v` when it writes the
    value `v` (where `v = none` is an explicit Python `None` entry, from a
    missing, null or non-numeric buy-price field). -/
def lineWrite (today : String) : LogLine → Option (Option ℚ)
  | some (.obj entries) =>
    match firstTS entries with
    | some (.obj series) =>
      match jget today series with
      | some (.obj bar) =>
        match pyFloatOpt (jget "1. buy price" bar) with
        | .ok v => some v
        | .error _ => some none
      | _ => none
    | _ => none
  | _ => none

theorem append_price_inj {a b : String} (h : a ++ "_price" = b ++ "_price") : a = b := by
  have hd : a.data ++ "_price".data = b.data ++ "_price".data := by
    rw [← String.data_append, ← String.data_append, h]
  exact String.ext (List.append_cancel_right hd)

theorem gopLine_write (today : String) (wanted : List String)
    (entries : List (String × Json)) (mentries : List (String × Json)) (s' : String)
    (hmd : jget "Meta Data" entries = some (.obj mentries))
    (hsym : jget "2. Symbol" mentries = some (.str s'))
    (hw : s' ∈ wanted) :
    gopLine today wanted (some (.obj entries)) =
      .ok ((lineWrite today (some (.obj entries))).map (fun v => (s' ++ "_price", v))) := by
  simp only [gopLine, lineWrite, hmd, Option.getD]
  rcases hft : firstTS entries with _ | fj
  · simp [hft, hsym, hw]
  · cases fj with
    | obj series =>
      rcases hbar : jget today series with _ | bj
      · simp [hft, hbar, hsym, hw]
      · cases bj with
        | obj bar =>
          rcases hpf : pyFloatOpt (jget "1. buy price" bar) with e | v
          · simp [hft, hbar, hpf, hsym, hw]
          · simp [hft, hbar, hpf, hsym, hw]
        | null => simp [hft, hbar, hsym, hw]
        | bool b => simp [hft, hbar, hsym, hw]
        | num q => simp [hft, hbar, hsym, hw]
        | str s => simp [hft, hbar, hsym, hw]
        | arr xs => simp [hft, hbar, hsym, hw]
    | null => simp [hft, hsym, hw]
    | bool b => simp [hft, hsym, hw]
    | num q => simp [hft, hsym, hw]
    | str s => simp [hft, hsym, hw]
    | arr xs => simp [hft, hsym, hw]

theorem gopLine_cases (today : String) (wanted : List String) (s : String) (line : LogLine)
    (hbm : badMeta line = false) (hsw : s ∈ wanted) :
    (gopLine today wanted line = .ok none ∧ matchesSymB s line = false) ∨
    (∃ s' v, s' ≠ s ∧ matchesSymB s line = false ∧
        gopLine today wanted line = .ok (some (s' ++ "_price", v))) ∨
    (matchesSymB s line = true ∧
        gopLine today wanted line =
          .ok ((lineWrite today line).map (fun v => (s ++ "_price", v)))) := by
  cases line with
  | none => exact Or.inl ⟨rfl, rfl⟩
  | some doc =>
    cases doc with
    | obj entries =>
      rcases hmd : jget "Meta Data" entries with _ | mj
      · refine Or.inl ⟨?_, ?_⟩
        · simp [gopLine, hmd, jget]
        · simp [matchesSymB, hmd]
      · cases mj with
        | obj mentries =>
          rcases hsym : jget "2. Symbol" mentries with _ | sj
          · exact Or.inl ⟨by simp [gopLine, hmd, hsym], by simp [matchesSymB, hmd, hsym]⟩
          · cases sj with
            | str s' =>
              by_cases hw : s' ∈ wanted
              · by_cases hss : s' = s
                · subst hss
                  exact Or.inr (Or.inr ⟨by simp [matchesSymB, hmd, hsym],
                    gopLine_write today wanted entries mentries s' hmd hsym hw⟩)
                · rcases hlw : lineWrite today (some (.obj entries)) with _ | v
                  · refine Or.inl ⟨?_, ?_⟩
                    · rw [gopLine_write today wanted entries mentries s' hmd hsym hw, hlw]
                      rfl
                    · simp [matchesSymB, hmd, hsym, hss]
                  · refine Or.inr (Or.inl ⟨s', v, hss, ?_, ?_⟩)
                    · simp [matchesSymB, hmd, hsym, hss]
                    · rw [gopLine_write today wanted entries mentries s' hmd hsym hw, hlw]
                      rfl
              · have hss : s' ≠ s := fun h => hw (h ▸ hsw)
                refine Or.inl ⟨?_, ?_⟩
                · simp [gopLine, hmd, hsym, hw]
                · simp [matchesSymB, hmd, hsym, hss]
            | null => exact Or.inl ⟨by simp [gopLine, hmd, hsym], by simp [matchesSymB, hmd, hsym]⟩
            | bool b => exact Or.inl ⟨by simp [gopLine, hmd, hsym], by simp [matchesSymB, hmd, hsym]⟩
            | num q => exact Or.inl ⟨by simp [gopLine, hmd, hsym], by simp [matchesSymB, hmd, hsym]⟩
            | obj o => exact Or.inl ⟨by simp [gopLine, hmd, hsym], by simp [matchesSymB, hmd, hsym]⟩
            | arr xs => exact Or.inl ⟨by simp [gopLine, hmd, hsym], by simp [matchesSymB, hmd, hsym]⟩
        | null => exact absurd hbm (by simp [badMeta, hmd])
        | bool b => exact absurd hbm (by simp [badMeta, hmd])
        | num q => exact absurd hbm (by simp [badMeta, hmd])
        | str s0 => exact absurd hbm (by simp [badMeta, hmd])
        | arr xs => exact absurd hbm (by simp [badMeta, hmd])
    | null => exact Or.inl ⟨by simp [gopLine, jget], by simp [matchesSymB]⟩
    | bool b => exact Or.inl ⟨by simp [gopLine, jget], by simp [matchesSymB]⟩
    | num q => exact Or.inl ⟨by simp [gopLine, jget], by simp [matchesSymB]⟩
    | str s0 => exact Or.inl ⟨by simp [gopLine, jget], by simp [matchesSymB]⟩
    | arr xs => exact Or.inl ⟨by simp [gopLine, jget], by simp [matchesSymB]⟩

theorem gopAux_dget (today : String) (wanted : List String) (s : String)
    (wv : Option (Option ℚ)) (hsw : s ∈ wanted) :
    ∀ (lines : List LogLine) (acc : List (String × Option ℚ)),
      (∀ l ∈ lines, badMeta l = false) →
      (∀ l ∈ lines, matchesSymB s l = true → lineWrite today l = wv) →
      ∃ res, gopAux today wanted lines acc = .ok res ∧
        dget (s ++ "_price") res =
          (if lines.any (matchesSymB s) then
             match wv with
             | some v => some v
             | none => dget (s ++ "_price") acc
           else dget (s ++ "_price") acc) := by
  intro lines
  induction lines with
  | nil =>
    intro acc _ _
    exact ⟨acc, rfl, by simp⟩
  | cons l rest ih =>
    intro acc hbm hlw
    have hbm0 : badMeta l = false := hbm l (List.mem_cons_self _ _)
    have hbmr : ∀ l' ∈ rest, badMeta l' = false :=
      fun l' hl' => hbm l' (List.mem_cons_of_mem _ hl')
    have hlwr : ∀ l' ∈ rest, matchesSymB s l' = true → lineWrite today l' = wv :=
      fun l' hl' => hlw l' (List.mem_cons_of_mem _ hl')
    rcases gopLine_cases today wanted s l hbm0 hsw with ⟨hE, hm⟩ |
        ⟨s', v, hss, hm, hE⟩ | ⟨hm, hE⟩
    · obtain ⟨res, hres, hdg⟩ := ih acc hbmr hlwr
      refine ⟨res, ?_, ?_⟩
      · simp only [gopAux, hE]
        exact hres
      · rw [hdg]
        simp [List.any_cons, hm]
    · obtain ⟨res, hres, hdg⟩ := ih (dinsert (s' ++ "_price") v acc) hbmr hlwr
      refine ⟨res, ?_, ?_⟩
      · simp only [gopAux, hE]
        exact hres
      · have hkey : s' ++ "_price" ≠ s ++ "_price" := fun h => hss (append_price_inj h)
        rw [hdg, dget_dinsert_ne _ _ _ _ hkey]
        simp [List.any_cons, hm]
    · have hwv : lineWrite today l = wv := hlw l (List.mem_cons_self _ _) hm
      rcases wv with _ | v
      · obtain ⟨res, hres, hdg⟩ := ih acc hbmr hlwr
        refine ⟨res, ?_, ?_⟩
        · simp only [gopAux, hE, hwv]
          exact hres
        · rw [hdg]
          simp [List.any_cons, hm]
      · obtain ⟨res, hres, hdg⟩ := ih (dinsert (s ++ "_price") v acc) hbmr hlwr
        refine ⟨res, ?_, ?_⟩
        · simp only [gopAux, hE, hwv]
          exact hres
        · rw [hdg]
          rcases hany : rest.any (matchesSymB s) with _ | _
          · simp [List.any_cons, hm, hany, dget_dinsert_self]
          · simp [List.any_cons, hm, hany]

/-- Claim C6, amended: an absent price-log file returns an empty dictionary;
    for a log whose lines all have well-formed metadata (a non-object
    `"Meta Data"` value instead makes the function raise), a requested symbol
    with no matching line — and likewise one whose matching lines have no
    time-series object or no bar object at the queried timestamp — ends with
    no entry at all in the returned dictionary (so a Python `.get` lookup
    yields `None` only by default), while a bar whose buy-price field is
    missing, null, or non-numeric produces an explicit `None` entry. -/
theorem getOpenPrices_missing_amended :
    (∀ (today : String) (symbols : List String),
        get_open_prices today symbols none = .ok []) ∧
    (∀ (today : String) (symbols : List String) (lines : List LogLine) (s : String)
        (wv : Option (Option ℚ)),
      s ∈ symbols →
      (∀ l ∈ lines, badMeta l = false) →
      (∀ l ∈ lines, matchesSymB s l = true → lineWrite today l = wv) →
      ∃ res, get_open_prices today symbols (some lines) = .ok res ∧
        ((∀ l ∈ lines, matchesSymB s l = false) → dget (s ++ "_price") res = none) ∧
        (wv = none → dget (s ++ "_price") res = none) ∧
        (∀ v, wv = some v → (∃ l ∈ lines, matchesSymB s l = true) →
          dget (s ++ "_price") res = some v)) := by
  constructor
  · intro today symbols; rfl
  · intro today symbols lines s wv hsw hbm hlw
    obtain ⟨res, hres, hdg⟩ := gopAux_dget today symbols s wv hsw lines [] hbm hlw
    refine ⟨res, hres, ?_, ?_, ?_⟩
    · intro hnone
      have hany : lines.any (matchesSymB s) = false := by
        rw [List.any_eq_false]
        intro l hl
        simp [hnone l hl]
      rw [hdg, hany]
      simp [dget]
    · intro hwv
      subst hwv
      rw [hdg]
      rcases hany : lines.any (matchesSymB s) with _ | _ <;> simp [dget]
    · intro v hwv hex
      subst hwv
      have hany : lines.any (matchesSymB s) = true := by
        rw [List.any_eq_true]
        obtain ⟨l, hl, hm⟩ := hex
        exact ⟨l, hl, by simp [hm]⟩
      rw [hdg, hany]
      simp

/-- Counterexample for C6 as stated: with symbol `AAA` present in the log but
    its series lacking any bar at the queried timestamp, the claim says the
    returned dictionary maps `AAA` to `None`; the code writes no entry at all,
    returning an empty dictionary. A second input shows the "never raises"
    part failing: a line whose `"Meta Data"` value is a string raises
    (`AttributeError` on `meta.get`, outside the per-line `try`). -/
theorem getOpenPrices_missing_cex :
    get_open_prices "2025-10-09" ["AAA"]
        (some [some (.obj [("Meta Data", .obj [("2. Symbol", .str "AAA")]),
          ("Time Series (Daily)", .obj [])])]) = .ok [] ∧
    dget "AAA_price" ([] : List (String × Option ℚ)) ≠ some none ∧
    get_open_prices "2025-10-09" ["AAA"]
        (some [some (.obj [("Meta Data", .str "oops")])]) = .error () := by
  refine ⟨by decide, by decide, by decide⟩

/-- Witness for the amended C6: a present bar whose buy-price field is the
    non-numeric string `"n/a"` maps the symbol to an explicit `None` entry. -/
theorem getOpenPrices_missing_witness :
    ∃ res, get_open_prices "2025-10-09" ["AAA"]
        (some [some (.obj [("Meta Data", .obj [("2. Symbol", .str "AAA")]),
          ("Time Series (Daily)",
            .obj [("2025-10-09", .obj [("1. buy price", .str "n/a")])])])]) = .ok res ∧
      dget "AAA_price" res = some none := by
  obtain ⟨res, hres, _, _, h3⟩ := getOpenPrices_missing_amended.2 "2025-10-09" ["AAA"]
    [some (.obj [("Meta Data", .obj [("2. Symbol", .str "AAA")]),
      ("Time Series (Daily)",
        .obj [("2025-10-09", .obj [("1. buy price", .str "n/a")])])])]
    "AAA" (some none) (by decide) (by decide) (by decide)
  refine ⟨res, hres, h3 none rfl ?_⟩
  refine ⟨some (.obj [("Meta Data", .obj [("2. Symbol", .str "AAA")]),
    ("Time Series (Daily)",
      .obj [("2025-10-09", .obj [("1. buy price", .str "n/a")])])]), ?_, by decide⟩
  exact List.mem_cons_self _ _

end AITrader
